import Mathlib

/-!
Shallow embedding of the extractive frequency-based summarizer of
`resume.py` (functions `split_sentences`, `tokenize_words`,
`summarize_text`), together with proofs of the specified properties.

Strings are modelled as `List Char`; Python floats are modelled as `ℚ`;
the optional `num_sentences` / `ratio` arguments are modelled as
`Option ℤ` / `Option ℚ` (Python `None` becomes `none`, and Python
truthiness `if num_sentences:` / `elif ratio:` is an explicit test
against `0`).
-/

namespace ResumeSum

/-- The sentence-terminal characters of the splitter regex `(?<=[.!?]) +`. -/
def isTerm (c : Char) : Bool := c == '.' || c == '!' || c == '?'

/-- ASCII model of the whitespace set stripped by Python `str.strip()`. -/
def isPySpace (c : Char) : Bool :=
  c == ' ' || c == '\t' || c == '\n' || c == '\r' || c == '\x0B' || c == '\x0C'

/-- Python `s.strip()`: drop leading and trailing whitespace. -/
def pyStrip (l : List Char) : List Char :=
  ((l.dropWhile isPySpace).reverse.dropWhile isPySpace).reverse

/-- Does the previous character (if any) terminate a sentence?  This is the
lookbehind `(?<=[.!?])` of the splitter regex. -/
def prevTerm : Option Char → Bool
  | none => false
  | some p => isTerm p

/-- One left-to-right pass of `re.split(r'(?<=[.!?]) +', text)`.
`skip = true` means we are inside a (greedy, maximal) run of separator
spaces that has already closed the previous span; `prev` is the previously
scanned character (the lookbehind); `acc` is the current span, reversed. -/
def splitAux (skip : Bool) (prev : Option Char) (acc : List Char) :
    List Char → List (List Char)
  | [] => [acc.reverse]
  | c :: rest =>
    if skip then
      if c == ' ' then splitAux true none acc rest
      else splitAux false (some c) (c :: acc) rest
    else if c == ' ' && prevTerm prev then
      acc.reverse :: splitAux true none [] rest
    else splitAux false (some c) (c :: acc) rest

/-- `split_sentences` from `resume.py`:
`re.split(r'(?<=[.!?]) +', text)`, then keep `s.strip()` for every span
whose stripped length exceeds 3. -/
def split_sentences (text : List Char) : List (List Char) :=
  (splitAux false none [] text).filterMap (fun s =>
    let t := pyStrip s
    if 3 < t.length then some t else none)

/-- A character matched by the token regex `[a-zA-Z']+`. -/
def isWordChar (c : Char) : Bool :=
  ('a' ≤ c && c ≤ 'z') || ('A' ≤ c && c ≤ 'Z') || c == '\''

/-- Left-to-right pass of `re.findall(r"[a-zA-Z']+", ...)`: collect maximal
runs of word characters.  `cur` is the current (reversed) run. -/
def tokenAux (cur : List Char) : List Char → List (List Char)
  | [] => if cur.isEmpty then [] else [cur.reverse]
  | c :: rest =>
    if isWordChar c then tokenAux (c :: cur) rest
    else if cur.isEmpty then tokenAux [] rest
    else cur.reverse :: tokenAux [] rest

/-- `tokenize_words` from `resume.py`:
`re.findall(r"[a-zA-Z']+", text.lower())`.  `Char.toLower` is the ASCII
lowering that is all the token character class can observe. -/
def tokenize_words (text : List Char) : List (List Char) :=
  tokenAux [] (text.map Char.toLower)

/-- The stopword set hard-coded in `summarize_text`. -/
def stopwords : List (List Char) :=
  (["the", "a", "an", "and", "is", "to", "in", "that", "for", "of", "on",
    "with", "as", "by", "at", "from", "this", "it", "be", "are", "or",
    "was", "were", "can", "has", "have", "had", "but", "if", "not",
    "we", "you", "they", "he", "she", "his", "her", "their", "our"]).map
    String.toList

/-- `words = [w for w in tokenize_words(text) if w not in stopwords]`. -/
def filteredWords (text : List Char) : List (List Char) :=
  (tokenize_words text).filter (fun w => !stopwords.contains w)

/-- Python `max` over a list of naturals: `none` on the empty list (where
Python raises `ValueError`). -/
def pyMax : List ℕ → Option ℕ
  | [] => none
  | x :: xs => some ((x :: xs).foldl max 0)

/-- `max_freq = max(freq.values())` where `freq = Counter(words)`: the
largest occurrence count of any distinct filtered word (`0` if there are
no words; that value is only ever used behind the non-emptiness guard). -/
def maxFreq (text : List Char) : ℕ :=
  (pyMax ((filteredWords text).dedup.map
    (fun w => (filteredWords text).count w))).getD 0

/-- The normalized weight `freq[w] = count(w) / max_freq` of a word. -/
def termWeight (text : List Char) (w : List Char) : ℚ :=
  ((filteredWords text).count w : ℚ) / (maxFreq text : ℚ)

/-- The tokens of sentence `s` that occur in the weight table `freq`
(the loop `for word in tokens: if word in freq:`). -/
def scoringTokens (text s : List Char) : List (List Char) :=
  (tokenize_words s).filter (fun t => (filteredWords text).contains t)

/-- `sentence_scores[i]`: the sum of `freq[word]` over the tokens of the
sentence that occur in the weight table. -/
def sentenceScore (text s : List Char) : ℚ :=
  ((scoringTokens text s).map (termWeight text)).sum

/-- The items of the `defaultdict` `sentence_scores`, in insertion order
(ascending sentence index).  An index appears iff its sentence has at
least one token in the weight table: only `sentence_scores[i] += ...`
creates an entry. -/
def scoredItems (text : List Char) : List (ℕ × ℚ) :=
  (split_sentences text).enum.filterMap (fun p =>
    if (scoringTokens text p.2).isEmpty then none
    else some (p.1, sentenceScore text p.2))

/-- `sorted(sentence_scores.items(), key=lambda x: x[1], reverse=True)`:
a stable sort by score descending.  `List.insertionSort` with this
relation is stable in exactly the way CPython's `sorted` is: an element
is inserted before the first later element whose score is not larger. -/
def sortScoreDesc (l : List (ℕ × ℚ)) : List (ℕ × ℚ) :=
  l.insertionSort (fun p q => q.2 ≤ p.2)

/-- The fully sorted score list, before truncation to the top `k`. -/
def sortedScores (text : List Char) : List (ℕ × ℚ) :=
  sortScoreDesc (scoredItems text)

/-- Python `int()` applied to a (here: exactly represented) real number:
truncation toward zero. -/
def pyInt (q : ℚ) : ℤ := if q < 0 then ⌈q⌉ else ⌊q⌋

/-- Resolution of `k` when `num_sentences` is falsy: the
`elif ratio: ... else: ...` chain (default ratio `0.25`). -/
def resolveKTail (total : ℕ) (r : Option ℚ) : ℤ :=
  match r with
  | some x =>
    if x == 0 then max 1 (pyInt ((total : ℚ) * (1 / 4)))
    else max 1 (pyInt ((total : ℚ) * x))
  | none => max 1 (pyInt ((total : ℚ) * (1 / 4)))

/-- Resolution of `k`: `if num_sentences: k = max(1, min(len(sentences),
num_sentences)) elif ratio: k = max(1, int(len(sentences) * ratio))
else: k = max(1, int(len(sentences) * 0.25))`. -/
def resolveK (total : ℕ) (num : Option ℤ) (r : Option ℚ) : ℤ :=
  match num with
  | some n => if n == 0 then resolveKTail total r else max 1 (min (total : ℤ) n)
  | none => resolveKTail total r

/-- `ranked = sorted(...)[:k]`. -/
def rankedList (text : List Char) (num : Option ℤ) (r : Option ℚ) :
    List (ℕ × ℚ) :=
  (sortedScores text).take (resolveK (split_sentences text).length num r).toNat

/-- `chosen_indices = sorted([i for i, _ in ranked])`. -/
def chosenIndices (text : List Char) (num : Option ℤ) (r : Option ℚ) :
    List ℕ :=
  ((rankedList text num r).map Prod.fst).insertionSort (· ≤ ·)

/-- `" ".join(...)`. -/
def joinSpace (l : List (List Char)) : List Char := List.intercalate [' '] l

/-- `summarize_text` from `resume.py`. -/
def summarize_text (text : List Char) (num : Option ℤ) (r : Option ℚ) :
    List Char :=
  let sentences := split_sentences text
  if sentences.isEmpty then [] else
  if (filteredWords text).isEmpty then joinSpace (sentences.take 1) else
  joinSpace ((chosenIndices text num r).map (fun i => sentences.getD i []))

/-- `summarize_text` with the two operations that can fail in Python made
explicit: `max()` over an empty sequence returns `none`, and a zero
`max_freq` (the divisor of every weight) returns `none`.  Everywhere else
the function is structurally total. -/
def summarize_checked (text : List Char) (num : Option ℤ) (r : Option ℚ) :
    Option (List Char) :=
  let sentences := split_sentences text
  if sentences.isEmpty then some [] else
  if (filteredWords text).isEmpty then some (joinSpace (sentences.take 1)) else
  match pyMax ((filteredWords text).dedup.map
      (fun w => (filteredWords text).count w)) with
  | none => none
  | some m =>
    if m == 0 then none
    else some (joinSpace ((chosenIndices text num r).map
      (fun i => (split_sentences text).getD i [])))

/-- Modelled from the spec: the sentence splitter as claim C8 words it,
breaking after `.`, `!` or `?` followed by any *whitespace* character
(the source regex only breaks on the space character).  Identical to
`splitAux` except that the separator class is `isPySpace`. -/
def splitAuxClaim (skip : Bool) (prev : Option Char) (acc : List Char) :
    List Char → List (List Char)
  | [] => [acc.reverse]
  | c :: rest =>
    if skip then
      if isPySpace c then splitAuxClaim true none acc rest
      else splitAuxClaim false (some c) (c :: acc) rest
    else if isPySpace c && prevTerm prev then
      acc.reverse :: splitAuxClaim true none [] rest
    else splitAuxClaim false (some c) (c :: acc) rest

/-- Modelled from the spec: `split_sentences` as claim C8 words it
(break after terminal punctuation followed by whitespace, strip, keep
spans longer than 3). -/
def splitSentencesClaim (text : List Char) : List (List Char) :=
  (splitAuxClaim false none [] text).filterMap (fun s =>
    let t := pyStrip s
    if 3 < t.length then some t else none)

/-! ## Helper lemmas about the sorting and selection pipeline -/

/-- The relation "comes earlier in the ranked list": strictly higher
score, or equal score and strictly smaller original index.  This is what
CPython's stable `sorted(..., key=score, reverse=True)` guarantees for a
list whose original order is by ascending index. -/
def rankRel (p q : ℕ × ℚ) : Prop := q.2 < p.2 ∨ (p.2 = q.2 ∧ p.1 < q.1)

theorem pairwise_snd_le_of_rankRel {q : ℕ × ℚ} {l : List (ℕ × ℚ)}
    (h : (q :: l).Pairwise rankRel) : ∀ x ∈ q :: l, x.2 ≤ q.2 := by
  intro x hx
  rcases List.mem_cons.mp hx with rfl | hx
  · exact le_refl _
  · rcases (List.pairwise_cons.mp h).1 x hx with h2 | ⟨h2, _⟩
    · exact le_of_lt h2
    · exact le_of_eq h2.symm

theorem orderedInsert_rankRel {p : ℕ × ℚ} {l : List (ℕ × ℚ)}
    (hl : l.Pairwise rankRel) (hidx : ∀ q ∈ l, p.1 < q.1) :
    (List.orderedInsert (fun a b => b.2 ≤ a.2) p l).Pairwise rankRel := by
  induction l with
  | nil => simp [List.orderedInsert]
  | cons q l ih =>
    rw [List.orderedInsert]
    by_cases h : q.2 ≤ p.2
    · rw [if_pos h]
      refine List.pairwise_cons.mpr ⟨?_, hl⟩
      intro x hx
      have hx2 : x.2 ≤ p.2 := le_trans (pairwise_snd_le_of_rankRel hl x hx) h
      rcases lt_or_eq_of_le hx2 with h2 | h2
      · exact Or.inl h2
      · refine Or.inr ⟨h2.symm, ?_⟩
        rcases List.mem_cons.mp hx with rfl | hx
        · exact hidx x (List.mem_cons_self x l)
        · exact hidx x (List.mem_cons_of_mem q hx)
    · rw [if_neg h]
      refine List.pairwise_cons.mpr ⟨?_, ih (hl.of_cons) ?_⟩
      · intro x hx
        rcases (List.mem_orderedInsert _).mp hx with rfl | hx
        · exact Or.inl (lt_of_not_le h)
        · exact (List.pairwise_cons.mp hl).1 x hx
      · intro x hx
        exact hidx x (List.mem_cons_of_mem q hx)

theorem sortScoreDesc_pairwise : ∀ {l : List (ℕ × ℚ)},
    l.Pairwise (fun p q => p.1 < q.1) → (sortScoreDesc l).Pairwise rankRel := by
  intro l
  induction l with
  | nil => intro _; simp [sortScoreDesc, List.insertionSort]
  | cons p l ih =>
    intro h
    rcases List.pairwise_cons.mp h with ⟨hp, hl⟩
    rw [sortScoreDesc, List.insertionSort]
    refine orderedInsert_rankRel (ih hl) ?_
    intro q hq
    exact hp q ((List.perm_insertionSort _ l).mem_iff.mp hq)

theorem sortScoreDesc_perm (l : List (ℕ × ℚ)) : (sortScoreDesc l).Perm l :=
  List.perm_insertionSort _ l

/-- The `defaultdict` items are in strictly ascending index order. -/
theorem scoredItems_pairwise_fst (text : List Char) :
    (scoredItems text).Pairwise (fun p q => p.1 < q.1) := by
  unfold scoredItems
  rw [List.pairwise_filterMap]
  have h1 : ((split_sentences text).enum.map Prod.fst).Pairwise (· < ·) := by
    rw [List.enum_map_fst]; exact List.pairwise_lt_range _
  have henum : (split_sentences text).enum.Pairwise (fun a b => a.1 < b.1) :=
    List.pairwise_map.mp h1
  refine henum.imp ?_
  intro a a' hlt b hb b' hb'
  by_cases hc : (scoringTokens text a.2).isEmpty
  · simp [hc] at hb
  · by_cases hc' : (scoringTokens text a'.2).isEmpty
    · simp [hc'] at hb'
    · simp only [if_neg hc] at hb
      simp only [if_neg hc'] at hb'
      rw [Option.mem_def] at hb hb'
      obtain rfl := Option.some.inj hb
      obtain rfl := Option.some.inj hb'
      exact hlt

/-- Membership in the scored items: the index is in range and the
sentence at that index has at least one token in the weight table. -/
theorem mem_scoredItems {text : List Char} {p : ℕ × ℚ}
    (hp : p ∈ scoredItems text) :
    p.1 < (split_sentences text).length ∧
      scoringTokens text ((split_sentences text).getD p.1 []) ≠ [] := by
  unfold scoredItems at hp
  obtain ⟨a, ha, hfa⟩ := List.mem_filterMap.mp hp
  by_cases hc : (scoringTokens text a.2).isEmpty
  · simp [hc] at hfa
  · simp only [if_neg hc] at hfa
    obtain rfl := Option.some.inj hfa
    dsimp only
    have hget := List.mem_enum_iff_getElem?.mp ha
    obtain ⟨hlen, hval⟩ := List.getElem?_eq_some.mp hget
    refine ⟨hlen, ?_⟩
    rw [List.getD_eq_getElem?_getD, hget]
    simpa [List.isEmpty_iff] using hc

theorem sortedScores_perm (text : List Char) :
    (sortedScores text).Perm (scoredItems text) :=
  List.perm_insertionSort _ _

theorem chosenIndices_perm (text : List Char) (num : Option ℤ) (r : Option ℚ) :
    (chosenIndices text num r).Perm ((rankedList text num r).map Prod.fst) :=
  List.perm_insertionSort _ _

theorem rankedList_map_fst_sublist (text : List Char) (num : Option ℤ)
    (r : Option ℚ) :
    ((rankedList text num r).map Prod.fst).Sublist
      ((sortedScores text).map Prod.fst) :=
  (List.take_sublist _ _).map Prod.fst

theorem scoredItems_map_fst_nodup (text : List Char) :
    ((scoredItems text).map Prod.fst).Nodup := by
  have h : ((scoredItems text).map Prod.fst).Pairwise (· < ·) :=
    List.pairwise_map.mpr (scoredItems_pairwise_fst text)
  exact h.imp (fun hab => Nat.ne_of_lt hab)

theorem chosenIndices_nodup (text : List Char) (num : Option ℤ) (r : Option ℚ) :
    (chosenIndices text num r).Nodup := by
  have h1 : ((sortedScores text).map Prod.fst).Nodup :=
    (((sortedScores_perm text).map Prod.fst).nodup_iff).mpr
      (scoredItems_map_fst_nodup text)
  have h2 : ((rankedList text num r).map Prod.fst).Nodup :=
    (rankedList_map_fst_sublist text num r).nodup h1
  exact ((chosenIndices_perm text num r).nodup_iff).mpr h2

theorem chosenIndices_sorted_lt (text : List Char) (num : Option ℤ)
    (r : Option ℚ) : (chosenIndices text num r).Pairwise (· < ·) := by
  have hs : (chosenIndices text num r).Sorted (· ≤ ·) :=
    List.sorted_insertionSort _ _
  exact hs.lt_of_le (chosenIndices_nodup text num r)

theorem mem_chosenIndices {text : List Char} {num : Option ℤ} {r : Option ℚ}
    {i : ℕ} (hi : i ∈ chosenIndices text num r) :
    ∃ p ∈ scoredItems text, p.1 = i := by
  have h1 : i ∈ (rankedList text num r).map Prod.fst :=
    (chosenIndices_perm text num r).mem_iff.mp hi
  have h2 : i ∈ (sortedScores text).map Prod.fst :=
    (rankedList_map_fst_sublist text num r).mem h1
  have h3 : i ∈ (scoredItems text).map Prod.fst :=
    ((sortedScores_perm text).map Prod.fst).mem_iff.mp h2
  obtain ⟨p, hp, hpi⟩ := List.mem_map.mp h3
  exact ⟨p, hp, hpi⟩

theorem chosenIndices_lt_length {text : List Char} {num : Option ℤ}
    {r : Option ℚ} {i : ℕ} (hi : i ∈ chosenIndices text num r) :
    i < (split_sentences text).length := by
  obtain ⟨p, hp, rfl⟩ := mem_chosenIndices hi
  exact (mem_scoredItems hp).1

theorem chosenIndices_length (text : List Char) (num : Option ℤ)
    (r : Option ℚ) :
    (chosenIndices text num r).length =
      min (resolveK (split_sentences text).length num r).toNat
        (scoredItems text).length := by
  rw [(chosenIndices_perm text num r).length_eq, List.length_map, rankedList,
    List.length_take, (sortedScores_perm text).length_eq]

theorem scoredItems_length_le (text : List Char) :
    (scoredItems text).length ≤ (split_sentences text).length := by
  have h := List.length_filterMap_le
    (fun p : ℕ × List Char =>
      if (scoringTokens text p.2).isEmpty then none
      else some (p.1, sentenceScore text p.2))
    (split_sentences text).enum
  simpa [scoredItems, List.enum_length] using h

/-- Selecting, via `getD`, the elements of a list at a strictly
increasing in-range index sequence yields a subsequence of the list. -/
theorem map_getD_sublist {α : Type} (d : α) :
    ∀ (l : List α) (idxs : List ℕ), idxs.Pairwise (· < ·) →
      (∀ i ∈ idxs, i < l.length) →
      (idxs.map (fun i => l.getD i d)).Sublist l := by
  intro l
  induction l with
  | nil =>
    intro idxs _ hb
    cases idxs with
    | nil => simp
    | cons i rest => exact absurd (hb i (List.mem_cons_self i rest)) (by simp)
  | cons a l ih =>
    intro idxs hp hb
    cases idxs with
    | nil => simp
    | cons i rest =>
      cases i with
      | zero =>
        have hpos : ∀ j ∈ rest, 0 < j := (List.pairwise_cons.mp hp).1
        have hmap : rest.map (fun j => (a :: l).getD j d) =
            (rest.map (fun j => j - 1)).map (fun j => l.getD j d) := by
          rw [List.map_map]
          refine List.map_congr_left ?_
          intro j hj
          obtain ⟨j', rfl⟩ := Nat.exists_eq_succ_of_ne_zero
            (Nat.pos_iff_ne_zero.mp (hpos j hj))
          simp [List.getD_cons_succ]
        have hps : (rest.map (fun j => j - 1)).Pairwise (· < ·) := by
          refine List.pairwise_map.mpr ?_
          refine ((List.pairwise_cons.mp hp).2).imp_of_mem ?_
          intro x y hx _ hxy
          exact Nat.sub_lt_sub_right (hpos x hx) hxy
        have hbs : ∀ j ∈ rest.map (fun j => j - 1), j < l.length := by
          intro j hj
          obtain ⟨j0, hj0, rfl⟩ := List.mem_map.mp hj
          have h1 := hb j0 (List.mem_cons_of_mem _ hj0)
          have h2 := hpos j0 hj0
          rw [List.length_cons] at h1
          omega
        simp only [List.map_cons, List.getD_cons_zero, hmap]
        exact List.Sublist.cons₂ a (ih _ hps hbs)
      | succ i' =>
        have hpos : ∀ j ∈ (i' + 1) :: rest, 0 < j := by
          intro j hj
          rcases List.mem_cons.mp hj with rfl | hj
          · exact Nat.succ_pos i'
          · exact Nat.lt_trans (Nat.succ_pos i')
              ((List.pairwise_cons.mp hp).1 j hj)
        have hmap : ((i' + 1) :: rest).map (fun j => (a :: l).getD j d) =
            (((i' + 1) :: rest).map (fun j => j - 1)).map
              (fun j => l.getD j d) := by
          rw [List.map_map]
          refine List.map_congr_left ?_
          intro j hj
          obtain ⟨j', rfl⟩ := Nat.exists_eq_succ_of_ne_zero
            (Nat.pos_iff_ne_zero.mp (hpos j hj))
          simp [List.getD_cons_succ]
        have hps : (((i' + 1) :: rest).map (fun j => j - 1)).Pairwise (· < ·) := by
          refine List.pairwise_map.mpr ?_
          refine hp.imp_of_mem ?_
          intro x y hx _ hxy
          exact Nat.sub_lt_sub_right (hpos x hx) hxy
        have hbs : ∀ j ∈ ((i' + 1) :: rest).map (fun j => j - 1), j < l.length := by
          intro j hj
          obtain ⟨j0, hj0, rfl⟩ := List.mem_map.mp hj
          have h1 := hb j0 hj0
          have h2 := hpos j0 hj0
          rw [List.length_cons] at h1
          omega
        rw [hmap]
        exact List.Sublist.cons a (ih _ hps hbs)

/-- Unfolding `summarize_text` in the main (non-degenerate) branch. -/
theorem summarize_text_eq_main (text : List Char) (num : Option ℤ)
    (r : Option ℚ) (h1 : split_sentences text ≠ [])
    (h2 : filteredWords text ≠ []) :
    summarize_text text num r =
      joinSpace ((chosenIndices text num r).map
        (fun i => (split_sentences text).getD i [])) := by
  unfold summarize_text
  rw [if_neg (by simp [List.isEmpty_iff, h1]), if_neg (by simp [List.isEmpty_iff, h2])]

/-- Unfolding `summarize_text` in the no-content-words branch. -/
theorem summarize_text_eq_fallback (text : List Char) (num : Option ℤ)
    (r : Option ℚ) (h1 : split_sentences text ≠ [])
    (h2 : filteredWords text = []) :
    summarize_text text num r = joinSpace ((split_sentences text).take 1) := by
  unfold summarize_text
  rw [if_neg (by simp [List.isEmpty_iff, h1]), if_pos (by simp [List.isEmpty_iff, h2])]

/-- Unfolding `summarize_text` when there are no sentences. -/
theorem summarize_text_eq_nil (text : List Char) (num : Option ℤ)
    (r : Option ℚ) (h1 : split_sentences text = []) :
    summarize_text text num r = [] := by
  unfold summarize_text
  rw [if_pos (by simp [List.isEmpty_iff, h1])]

theorem joinSpace_singleton (s : List Char) : joinSpace [s] = s := by
  simp [joinSpace, List.intercalate]

theorem init_le_foldl_max (l : List ℕ) : ∀ b : ℕ, b ≤ l.foldl max b := by
  induction l with
  | nil => intro b; exact le_refl b
  | cons x xs ih => intro b; exact le_trans (Nat.le_max_left b x) (ih (max b x))

theorem mem_le_foldl_max {a : ℕ} : ∀ {l : List ℕ} (b : ℕ), a ∈ l →
    a ≤ l.foldl max b := by
  intro l
  induction l with
  | nil => intro b h; cases h
  | cons x xs ih =>
    intro b h
    rcases List.mem_cons.mp h with rfl | h
    · exact le_trans (Nat.le_max_right b a) (init_le_foldl_max xs (max b a))
    · exact ih (max b x) h

/-- Every value of the counter is the count of a filtered word, hence
positive. -/
theorem countList_pos (text : List Char) {a : ℕ}
    (ha : a ∈ (filteredWords text).dedup.map
      (fun w => (filteredWords text).count w)) : 1 ≤ a := by
  obtain ⟨w, hw, rfl⟩ := List.mem_map.mp ha
  have hmem : w ∈ filteredWords text := List.mem_dedup.mp hw
  exact List.count_pos_iff.mpr hmem

/-! ## The claims -/

/-- C1.  For every input text and every length target, the summary
returned by `summarize_text` is the join (by single spaces) of a
subsequence of the sentence sequence produced by the segmenter: every
summary sentence is literally one of the segmented sentences, and the
selected sentences appear in ascending original index order, regardless
of how they were ranked by score. -/
theorem summary_subsequence_of_segmentation (text : List Char)
    (num : Option ℤ) (r : Option ℚ) :
    ∃ chosen : List (List Char), chosen.Sublist (split_sentences text) ∧
      summarize_text text num r = joinSpace chosen := by
  by_cases h1 : split_sentences text = []
  · exact ⟨[], by simp, by rw [summarize_text_eq_nil text num r h1]; rfl⟩
  by_cases h2 : filteredWords text = []
  · exact ⟨(split_sentences text).take 1, List.take_sublist _ _,
      summarize_text_eq_fallback text num r h1 h2⟩
  · refine ⟨(chosenIndices text num r).map
      (fun i => (split_sentences text).getD i []), ?_,
      summarize_text_eq_main text num r h1 h2⟩
    exact map_getD_sublist [] (split_sentences text) _
      (chosenIndices_sorted_lt text num r)
      (fun i hi => chosenIndices_lt_length hi)

/-- C5.  `summarize_text` is total: the variant `summarize_checked`, in
which the two partial operations of the Python code (`max()` on an empty
sequence, and the division of every frequency by `max_freq`) are guarded
and return `none` when they would fail, always returns
`some (summarize_text text num r)`.  In particular the division by the
maximum raw frequency is only reached when the filtered token list is
non-empty, and its divisor is then positive. -/
theorem summarizer_total_no_div_by_zero (text : List Char) (num : Option ℤ)
    (r : Option ℚ) :
    summarize_checked text num r = some (summarize_text text num r) := by
  by_cases h1 : split_sentences text = []
  · rw [summarize_text_eq_nil text num r h1]
    unfold summarize_checked
    rw [if_pos (by simp [List.isEmpty_iff, h1])]
  by_cases h2 : filteredWords text = []
  · rw [summarize_text_eq_fallback text num r h1 h2]
    unfold summarize_checked
    rw [if_neg (by simp [List.isEmpty_iff, h1]),
      if_pos (by simp [List.isEmpty_iff, h2])]
  · rw [summarize_text_eq_main text num r h1 h2]
    unfold summarize_checked
    rw [if_neg (by simp [List.isEmpty_iff, h1]),
      if_neg (by simp [List.isEmpty_iff, h2])]
    have hdne : (filteredWords text).dedup.map
        (fun w => (filteredWords text).count w) ≠ [] := by
      simp [List.dedup_eq_nil, h2]
    obtain ⟨x, xs, hxs⟩ := List.exists_cons_of_ne_nil hdne
    have hpm : pyMax ((filteredWords text).dedup.map
        (fun w => (filteredWords text).count w)) =
        some ((x :: xs).foldl max 0) := by rw [hxs]; rfl
    rw [hpm]
    have hx1 : 1 ≤ (x :: xs).foldl max 0 := by
      refine le_trans ?_ (mem_le_foldl_max 0 (List.mem_cons_self x xs))
      refine countList_pos text ?_
      rw [hxs]; exact List.mem_cons_self x xs
    show (if ((x :: xs).foldl max 0 == 0) = true then none
      else some (joinSpace ((chosenIndices text num r).map
        (fun i => (split_sentences text).getD i [])))) = _
    rw [if_neg (by simp only [beq_iff_eq]; omega)]

/-- C6.  `summarize_text` is deterministic — in this embedding it is a
pure function, so two calls on equal arguments are definitionally equal —
and ties in sentence score are broken deterministically by ascending
original sentence index: in the stably sorted score list, any element
strictly earlier than another has either a strictly larger score, or an
equal score and a strictly smaller original index. -/
theorem deterministic_stable_tie_break (text : List Char) (num : Option ℤ)
    (r : Option ℚ) :
    summarize_text text num r = summarize_text text num r ∧
      (sortedScores text).Pairwise rankRel :=
  ⟨rfl, sortScoreDesc_pairwise (scoredItems_pairwise_fst text)⟩

/-- C9.  When both a positive absolute count and a ratio are supplied,
the absolute count takes precedence and the ratio is ignored: the result
is identical to the count-only call, and the resolved target is
`max 1 (min total n)`. -/
theorem count_precedence_over_ratio (text : List Char) (n : ℤ) (r : ℚ)
    (hn : 0 < n) :
    summarize_text text (some n) (some r) = summarize_text text (some n) none ∧
      resolveK (split_sentences text).length (some n) (some r) =
        max 1 (min ((split_sentences text).length : ℤ) n) := by
  have hne : (n == 0) = false := beq_eq_false_iff_ne.mpr (by omega)
  constructor
  · simp [summarize_text, chosenIndices, rankedList, resolveK, hne]
  · simp [resolveK, hne]

/-- C2 (amended).  With a positive absolute count `n` supplied, a
non-empty segmentation and a non-empty filtered token list, the number of
sentences selected for the summary equals
`min (clamp(n, 1, total), S)` where `S` is the number of sentences having
at least one token in the weight table — not always `clamp(n, 1, total)`:
sentences without weighted tokens never enter the score table, so the
summary can fall short of the requested target.  The count never exceeds
the total number of sentences. -/
theorem summary_count_absolute_target (text : List Char) (n : ℤ)
    (h1 : split_sentences text ≠ []) (h2 : filteredWords text ≠ [])
    (hn : 0 < n) :
    (chosenIndices text (some n) none).length =
      min (max 1 (min ((split_sentences text).length : ℤ) n)).toNat
        (scoredItems text).length ∧
    (chosenIndices text (some n) none).length ≤
      (split_sentences text).length ∧
    summarize_text text (some n) none =
      joinSpace ((chosenIndices text (some n) none).map
        (fun i => (split_sentences text).getD i [])) := by
  have hne : (n == 0) = false := beq_eq_false_iff_ne.mpr (by omega)
  have hk : resolveK (split_sentences text).length (some n) none =
      max 1 (min ((split_sentences text).length : ℤ) n) := by
    simp [resolveK, hne]
  refine ⟨?_, ?_, summarize_text_eq_main text (some n) none h1 h2⟩
  · rw [chosenIndices_length, hk]
  · rw [chosenIndices_length]
    exact le_trans (Nat.min_le_right _ _) (scoredItems_length_le text)

/-- C3 (amended).  With a ratio `r ∈ (0, 1]` supplied and no absolute
count, a non-empty segmentation and a non-empty filtered token list, the
number of sentences selected for the summary equals
`min (max 1 ⌊total * r⌋, S)` where `S` is the number of sentences having
at least one token in the weight table — not always `max 1 ⌊total * r⌋`:
sentences without weighted tokens never enter the score table, so the
summary can fall short of the requested target.  The count never exceeds
the total number of sentences. -/
theorem summary_count_ratio_target (text : List Char) (r : ℚ)
    (h1 : split_sentences text ≠ []) (h2 : filteredWords text ≠ [])
    (hr0 : 0 < r) (hr1 : r ≤ 1) :
    (chosenIndices text none (some r)).length =
      min (max 1 ⌊((split_sentences text).length : ℚ) * r⌋).toNat
        (scoredItems text).length ∧
    (chosenIndices text none (some r)).length ≤
      (split_sentences text).length ∧
    summarize_text text none (some r) =
      joinSpace ((chosenIndices text none (some r)).map
        (fun i => (split_sentences text).getD i [])) := by
  have hne : (r == 0) = false := beq_eq_false_iff_ne.mpr (ne_of_gt hr0)
  have hnn : ¬ (((split_sentences text).length : ℚ) * r < 0) :=
    not_lt.mpr (mul_nonneg (Nat.cast_nonneg _) hr0.le)
  have hk : resolveK (split_sentences text).length none (some r) =
      max 1 ⌊((split_sentences text).length : ℚ) * r⌋ := by
    simp [resolveK, resolveKTail, hne, pyInt, hnn]
  refine ⟨?_, ?_, summarize_text_eq_main text none (some r) h1 h2⟩
  · rw [chosenIndices_length, hk]
  · rw [chosenIndices_length]
    exact le_trans (Nat.min_le_right _ _) (scoredItems_length_le text)

/-- C10.  When the filtered token list is non-empty, a segmented sentence
none of whose tokens appears in the weight table is never selected, for
any length target; consequently the summary can even be empty while the
segmentation is non-empty, as the concrete input `"the an is. cat"`
(whose only kept sentence consists of stopwords, while the fragment
`"cat"` is discarded by the splitter) shows. -/
theorem unweighted_sentence_never_selected :
    (∀ (text : List Char) (num : Option ℤ) (r : Option ℚ) (i : ℕ),
      filteredWords text ≠ [] → i < (split_sentences text).length →
      scoringTokens text ((split_sentences text).getD i []) = [] →
      i ∉ chosenIndices text num r) ∧
    split_sentences ("the an is. cat".toList) ≠ [] ∧
    filteredWords ("the an is. cat".toList) ≠ [] ∧
    summarize_text ("the an is. cat".toList) (some 2) none = [] := by
  refine ⟨?_, by decide, by decide, by decide⟩
  intro text num r i _ _ hs hmem
  obtain ⟨p, hp, rfl⟩ := mem_chosenIndices hmem
  exact (mem_scoredItems hp).2 hs

/-- Witness for C10: in `"the an is to. good cat"` the first segmented
sentence consists solely of stopwords; it is not selected. -/
theorem unweighted_sentence_never_selected_wit :
    0 ∉ chosenIndices ("the an is to. good cat".toList) (some 1) none :=
  unweighted_sentence_never_selected.1 ("the an is to. good cat".toList)
    (some 1) none 0 (by decide) (by decide) (by decide)

/-- C4.  Degenerate inputs: the empty string and a whitespace-only string
summarize to the empty string for every length target, and any text whose
filtered token list is empty summarizes to its first segmented sentence
verbatim (or to the empty string when the segmentation is empty, since
`headD` of the empty sentence list is the empty string). -/
theorem degenerate_inputs (num : Option ℤ) (r : Option ℚ) (text : List Char) :
    summarize_text ("".toList) num r = [] ∧
    summarize_text ("   ".toList) num r = [] ∧
    (filteredWords text = [] →
      summarize_text text num r = (split_sentences text).headD []) := by
  refine ⟨summarize_text_eq_nil _ num r (by decide),
    summarize_text_eq_nil _ num r (by decide), ?_⟩
  intro h
  by_cases h1 : split_sentences text = []
  · rw [summarize_text_eq_nil text num r h1, h1]; rfl
  · rw [summarize_text_eq_fallback text num r h1 h]
    obtain ⟨s, ss, hss⟩ := List.exists_cons_of_ne_nil h1
    rw [hss]
    show joinSpace [s] = s
    exact joinSpace_singleton s

/-- Witness for C4: `"the a an is to"` consists solely of stopwords and
is returned verbatim as its own (single-sentence) summary. -/
theorem degenerate_inputs_wit :
    summarize_text ("the a an is to".toList) none none =
      (split_sentences ("the a an is to".toList)).headD [] :=
  (degenerate_inputs none none ("the a an is to".toList)).2.2 (by decide)

/-- Counterexample to C2 as stated: for `"the an is. cat"` the
segmentation has exactly one sentence, yet with absolute count `1` the
summary is empty (0 sentences, not `min 1 1 = 1`): the only sentence has
no token in the weight table, so it never enters the score table. -/
theorem count_target_not_attained_cex :
    (split_sentences ("the an is. cat".toList)).length = 1 ∧
    filteredWords ("the an is. cat".toList) ≠ [] ∧
    summarize_text ("the an is. cat".toList) (some 1) none = [] := by
  refine ⟨by decide, by decide, by decide⟩

/-- Counterexample to C3 as stated: for `"the an is. cat"` the
segmentation has exactly one sentence, yet with ratio `1` the summary is
empty (0 sentences, not `max 1 ⌊1 * 1⌋ = 1`). -/
theorem ratio_target_not_attained_cex :
    (split_sentences ("the an is. cat".toList)).length = 1 ∧
    filteredWords ("the an is. cat".toList) ≠ [] ∧
    summarize_text ("the an is. cat".toList) none (some 1) = [] := by
  refine ⟨by decide, by decide, ?_⟩
  rw [summarize_text_eq_main _ none (some 1) (by decide) (by decide)]
  have hs : sortedScores ("the an is. cat".toList) = [] := by decide
  rw [chosenIndices, rankedList, hs, List.take_nil]
  rfl

/-- Witness for C2 (amended) at `"Cats run fast. Dogs sleep well."`,
`n = 5`: both sentences carry weighted tokens, so the count is
`min (clamp(5,1,2), 2) = 2`. -/
theorem summary_count_absolute_target_wit :
    (chosenIndices ("Cats run fast. Dogs sleep well.".toList)
        (some 5) none).length =
      min (max 1 (min ((split_sentences
        ("Cats run fast. Dogs sleep well.".toList)).length : ℤ) 5)).toNat
        (scoredItems ("Cats run fast. Dogs sleep well.".toList)).length :=
  (summary_count_absolute_target ("Cats run fast. Dogs sleep well.".toList) 5
    (by decide) (by decide) (by decide)).1

/-- Witness for C3 (amended) at `"Cats run fast. Dogs sleep well."`,
`r = 1`: the count is `min (max 1 ⌊2 * 1⌋, 2) = 2`. -/
theorem summary_count_ratio_target_wit :
    (chosenIndices ("Cats run fast. Dogs sleep well.".toList)
        none (some 1)).length =
      min (max 1 ⌊((split_sentences
        ("Cats run fast. Dogs sleep well.".toList)).length : ℚ) * 1⌋).toNat
        (scoredItems ("Cats run fast. Dogs sleep well.".toList)).length :=
  (summary_count_ratio_target ("Cats run fast. Dogs sleep well.".toList)
    1 (by decide) (by decide) (by decide) (by decide)).1

/-- Witness for C9 at `"Cats run fast. Dogs sleep well."`, `n = 1`,
`r = 1`. -/
theorem count_precedence_over_ratio_wit :
    summarize_text ("Cats run fast. Dogs sleep well.".toList)
        (some 1) (some 1) =
      summarize_text ("Cats run fast. Dogs sleep well.".toList)
        (some 1) none :=
  (count_precedence_over_ratio ("Cats run fast. Dogs sleep well.".toList) 1
    1 (by decide)).1

/-! ## The example scenario (C7) -/

theorem score_ex_sentence0 :
    sentenceScore
      ("Alice built a fast cache. The cache is fast. Bob wrote slow code.".toList)
      ("Alice built a fast cache.".toList) = 3 := by
  have ht : scoringTokens
      ("Alice built a fast cache. The cache is fast. Bob wrote slow code.".toList)
      ("Alice built a fast cache.".toList) =
      ["alice".toList, "built".toList, "fast".toList, "cache".toList] := by
    decide
  have hm : maxFreq
      ("Alice built a fast cache. The cache is fast. Bob wrote slow code.".toList) = 2 := by
    decide
  have ha : (filteredWords
      ("Alice built a fast cache. The cache is fast. Bob wrote slow code.".toList)).count
      ("alice".toList) = 1 := by decide
  have hb : (filteredWords
      ("Alice built a fast cache. The cache is fast. Bob wrote slow code.".toList)).count
      ("built".toList) = 1 := by decide
  have hf : (filteredWords
      ("Alice built a fast cache. The cache is fast. Bob wrote slow code.".toList)).count
      ("fast".toList) = 2 := by decide
  have hc : (filteredWords
      ("Alice built a fast cache. The cache is fast. Bob wrote slow code.".toList)).count
      ("cache".toList) = 2 := by decide
  rw [sentenceScore, ht]
  simp only [List.map_cons, List.map_nil, termWeight, hm, ha, hb, hf, hc,
    List.sum_cons, List.sum_nil]
  norm_num

theorem score_ex_sentence1 :
    sentenceScore
      ("Alice built a fast cache. The cache is fast. Bob wrote slow code.".toList)
      ("The cache is fast.".toList) = 2 := by
  have ht : scoringTokens
      ("Alice built a fast cache. The cache is fast. Bob wrote slow code.".toList)
      ("The cache is fast.".toList) = ["cache".toList, "fast".toList] := by
    decide
  have hm : maxFreq
      ("Alice built a fast cache. The cache is fast. Bob wrote slow code.".toList) = 2 := by
    decide
  have hf : (filteredWords
      ("Alice built a fast cache. The cache is fast. Bob wrote slow code.".toList)).count
      ("fast".toList) = 2 := by decide
  have hc : (filteredWords
      ("Alice built a fast cache. The cache is fast. Bob wrote slow code.".toList)).count
      ("cache".toList) = 2 := by decide
  rw [sentenceScore, ht]
  simp only [List.map_cons, List.map_nil, termWeight, hm, hf, hc,
    List.sum_cons, List.sum_nil]
  norm_num

theorem score_ex_sentence2 :
    sentenceScore
      ("Alice built a fast cache. The cache is fast. Bob wrote slow code.".toList)
      ("Bob wrote slow code.".toList) = 2 := by
  have ht : scoringTokens
      ("Alice built a fast cache. The cache is fast. Bob wrote slow code.".toList)
      ("Bob wrote slow code.".toList) =
      ["bob".toList, "wrote".toList, "slow".toList, "code".toList] := by
    decide
  have hm : maxFreq
      ("Alice built a fast cache. The cache is fast. Bob wrote slow code.".toList) = 2 := by
    decide
  have h1 : (filteredWords
      ("Alice built a fast cache. The cache is fast. Bob wrote slow code.".toList)).count
      ("bob".toList) = 1 := by decide
  have h2 : (filteredWords
      ("Alice built a fast cache. The cache is fast. Bob wrote slow code.".toList)).count
      ("wrote".toList) = 1 := by decide
  have h3 : (filteredWords
      ("Alice built a fast cache. The cache is fast. Bob wrote slow code.".toList)).count
      ("slow".toList) = 1 := by decide
  have h4 : (filteredWords
      ("Alice built a fast cache. The cache is fast. Bob wrote slow code.".toList)).count
      ("code".toList) = 1 := by decide
  rw [sentenceScore, ht]
  simp only [List.map_cons, List.map_nil, termWeight, hm, h1, h2, h3, h4,
    List.sum_cons, List.sum_nil]
  norm_num

theorem scoredItems_ex :
    scoredItems
      ("Alice built a fast cache. The cache is fast. Bob wrote slow code.".toList)
      = [(0, 3), (1, 2), (2, 2)] := by
  have hshape : scoredItems
      ("Alice built a fast cache. The cache is fast. Bob wrote slow code.".toList)
      = [(0, sentenceScore
            ("Alice built a fast cache. The cache is fast. Bob wrote slow code.".toList)
            ("Alice built a fast cache.".toList)),
         (1, sentenceScore
            ("Alice built a fast cache. The cache is fast. Bob wrote slow code.".toList)
            ("The cache is fast.".toList)),
         (2, sentenceScore
            ("Alice built a fast cache. The cache is fast. Bob wrote slow code.".toList)
            ("Bob wrote slow code.".toList))] := by rfl
  rw [hshape, score_ex_sentence0, score_ex_sentence1, score_ex_sentence2]

/-- Counterexample to C7 as stated: in the example scenario the first
sentence alone attains the highest score (3.0); the second and third
score 2.0 each, so sentences 1 and 2 do *not* both attain the highest
score (on either a 1-based or a 0-based reading of the claim). -/
theorem example_scenario_tie_cex :
    sentenceScore
      ("Alice built a fast cache. The cache is fast. Bob wrote slow code.".toList)
      ("Alice built a fast cache.".toList) = 3 ∧
    sentenceScore
      ("Alice built a fast cache. The cache is fast. Bob wrote slow code.".toList)
      ("The cache is fast.".toList) = 2 ∧
    sentenceScore
      ("Alice built a fast cache. The cache is fast. Bob wrote slow code.".toList)
      ("Bob wrote slow code.".toList) = 2 ∧
    sentenceScore
      ("Alice built a fast cache. The cache is fast. Bob wrote slow code.".toList)
      ("The cache is fast.".toList) ≠
      sentenceScore
        ("Alice built a fast cache. The cache is fast. Bob wrote slow code.".toList)
        ("Alice built a fast cache.".toList) := by
  refine ⟨score_ex_sentence0, score_ex_sentence1, score_ex_sentence2, ?_⟩
  rw [score_ex_sentence0, score_ex_sentence1]
  norm_num

/-- C7 (amended).  For the example input with ratio `0.34`: the segmenter
yields exactly the 3 expected sentences; "fast" and "cache" are the
highest-weight terms (weight 1.0 each); the sentence scores are 3.0, 2.0,
2.0 — the first sentence alone attains the maximum — the resolved target
is `max 1 ⌊3 · 0.34⌋ = 1`, and the summary is exactly
`"Alice built a fast cache."`. -/
theorem example_scenario :
    split_sentences
      ("Alice built a fast cache. The cache is fast. Bob wrote slow code.".toList)
      = ["Alice built a fast cache.".toList, "The cache is fast.".toList,
         "Bob wrote slow code.".toList] ∧
    termWeight
      ("Alice built a fast cache. The cache is fast. Bob wrote slow code.".toList)
      ("fast".toList) = 1 ∧
    termWeight
      ("Alice built a fast cache. The cache is fast. Bob wrote slow code.".toList)
      ("cache".toList) = 1 ∧
    scoredItems
      ("Alice built a fast cache. The cache is fast. Bob wrote slow code.".toList)
      = [(0, 3), (1, 2), (2, 2)] ∧
    resolveK (split_sentences
      ("Alice built a fast cache. The cache is fast. Bob wrote slow code.".toList)).length
      none (some (34 / 100)) = 1 ∧
    summarize_text
      ("Alice built a fast cache. The cache is fast. Bob wrote slow code.".toList)
      none (some (34 / 100)) = "Alice built a fast cache.".toList := by
  have hm : maxFreq
      ("Alice built a fast cache. The cache is fast. Bob wrote slow code.".toList) = 2 := by
    decide
  have hf : (filteredWords
      ("Alice built a fast cache. The cache is fast. Bob wrote slow code.".toList)).count
      ("fast".toList) = 2 := by decide
  have hc : (filteredWords
      ("Alice built a fast cache. The cache is fast. Bob wrote slow code.".toList)).count
      ("cache".toList) = 2 := by decide
  have hk : resolveK (split_sentences
      ("Alice built a fast cache. The cache is fast. Bob wrote slow code.".toList)).length
      none (some (34 / 100)) = 1 := by
    have h3 : (split_sentences
      ("Alice built a fast cache. The cache is fast. Bob wrote slow code.".toList)).length
      = 3 := by decide
    rw [h3, resolveK, resolveKTail,
      if_neg (by simp only [beq_iff_eq]; norm_num), pyInt,
      if_neg (by norm_num)]
    norm_num
  refine ⟨by decide, ?_, ?_, scoredItems_ex, hk, ?_⟩
  · rw [termWeight, hm, hf]; norm_num
  · rw [termWeight, hm, hc]; norm_num
  · rw [summarize_text_eq_main _ none (some (34 / 100)) (by decide) (by decide)]
    have hsorted : sortedScores
        ("Alice built a fast cache. The cache is fast. Bob wrote slow code.".toList)
        = [(0, 3), (1, 2), (2, 2)] := by
      rw [sortedScores, scoredItems_ex]; decide
    rw [chosenIndices, rankedList, hsorted, hk]
    decide

/-! ## Properties of the sentence splitter (C8) -/

/-- No sentence-terminal character is immediately followed by a space
anywhere inside the span: the splitter consumed every break point it
recognises. -/
def NoBreak : List Char → Prop
  | [] => True
  | [_] => True
  | c :: d :: rest => ¬(isTerm c = true ∧ d = ' ') ∧ NoBreak (d :: rest)

theorem noBreak_tail : ∀ {x : Char} {l : List Char}, NoBreak (x :: l) →
    NoBreak l
  | _, [], _ => trivial
  | _, _ :: _, h => h.2

theorem noBreak_of_append_left : ∀ (l r : List Char), NoBreak (l ++ r) →
    NoBreak l := by
  intro l
  induction l with
  | nil => intro r _; trivial
  | cons x tl ih =>
    intro r h
    cases tl with
    | nil => trivial
    | cons y tl' => exact ⟨h.1, ih r (noBreak_tail h)⟩

theorem noBreak_of_append_right : ∀ (l r : List Char), NoBreak (l ++ r) →
    NoBreak r := by
  intro l
  induction l with
  | nil => intro r h; exact h
  | cons x tl ih => intro r h; exact ih r (noBreak_tail h)

theorem NoBreak.of_span {s l : List Char} (hinf : s <:+: l)
    (h : NoBreak l) : NoBreak s := by
  obtain ⟨t, u, rfl⟩ := hinf
  rw [List.append_assoc] at h
  exact noBreak_of_append_left _ _ (noBreak_of_append_right _ _ h)

theorem noBreak_append_singleton : ∀ (l : List Char) (c : Char),
    NoBreak l → (∀ p, l.getLast? = some p → ¬(isTerm p = true ∧ c = ' ')) →
    NoBreak (l ++ [c]) := by
  intro l
  induction l with
  | nil => intro c _ _; trivial
  | cons x tl ih =>
    intro c h hlast
    cases tl with
    | nil => exact ⟨hlast x rfl, trivial⟩
    | cons y tl' =>
      refine ⟨h.1, ih c (noBreak_tail h) ?_⟩
      intro p hp
      exact hlast p (List.getLast?_cons_cons.trans hp)

theorem splitAux_mem_span : ∀ (l : List Char) (skip : Bool)
    (prev : Option Char) (acc : List Char), (skip = true → acc = []) →
    ∀ s ∈ splitAux skip prev acc l, s <:+: (acc.reverse ++ l) := by
  intro l
  induction l with
  | nil =>
    intro skip prev acc _ s hmem
    simp only [splitAux, List.mem_singleton] at hmem
    subst hmem
    simp
  | cons c rest ih =>
    intro skip prev acc hsk s hmem
    simp only [splitAux] at hmem
    by_cases h1 : skip = true
    · rw [if_pos h1] at hmem
      obtain rfl := hsk h1
      by_cases h2 : (c == ' ') = true
      · rw [if_pos h2] at hmem
        have h3 := ih true none [] (fun _ => rfl) s hmem
        simp only [List.reverse_nil, List.nil_append] at h3 ⊢
        exact h3.trans (List.suffix_cons c rest).isInfix
      · rw [if_neg h2] at hmem
        have h3 := ih false (some c) [c] (by simp) s hmem
        simpa using h3
    · rw [if_neg h1] at hmem
      by_cases h2 : (c == ' ' && prevTerm prev) = true
      · rw [if_pos h2] at hmem
        rcases List.mem_cons.mp hmem with rfl | hmem2
        · exact ⟨[], c :: rest, by simp⟩
        · have h3 := ih true none [] (fun _ => rfl) s hmem2
          simp only [List.reverse_nil, List.nil_append] at h3
          exact h3.trans
            ((List.suffix_cons c rest).trans
              (List.suffix_append acc.reverse (c :: rest))).isInfix
      · rw [if_neg h2] at hmem
        have h3 := ih false (some c) (c :: acc) (by simp) s hmem
        rw [List.reverse_cons, List.append_assoc] at h3
        simpa using h3

theorem splitAux_mem_noBreak : ∀ (l : List Char) (skip : Bool)
    (prev : Option Char) (acc : List Char), (skip = true → acc = []) →
    prev = acc.head? → NoBreak acc.reverse →
    ∀ s ∈ splitAux skip prev acc l, NoBreak s := by
  intro l
  induction l with
  | nil =>
    intro skip prev acc _ _ hnb s hmem
    simp only [splitAux, List.mem_singleton] at hmem
    subst hmem
    exact hnb
  | cons c rest ih =>
    intro skip prev acc hsk hprev hnb s hmem
    simp only [splitAux] at hmem
    by_cases h1 : skip = true
    · rw [if_pos h1] at hmem
      obtain rfl := hsk h1
      by_cases h2 : (c == ' ') = true
      · rw [if_pos h2] at hmem
        exact ih true none [] (fun _ => rfl) rfl trivial s hmem
      · rw [if_neg h2] at hmem
        exact ih false (some c) [c] (by simp) rfl trivial s hmem
    · rw [if_neg h1] at hmem
      by_cases h2 : (c == ' ' && prevTerm prev) = true
      · rw [if_pos h2] at hmem
        rcases List.mem_cons.mp hmem with rfl | hmem2
        · exact hnb
        · exact ih true none [] (fun _ => rfl) rfl trivial s hmem2
      · rw [if_neg h2] at hmem
        refine ih false (some c) (c :: acc) (by simp) rfl ?_ s hmem
        rw [List.reverse_cons]
        refine noBreak_append_singleton acc.reverse c hnb ?_
        intro p hp hcontra
        rw [List.getLast?_reverse] at hp
        exact h2 (by rw [hcontra.2, hprev, hp]; simp [prevTerm, hcontra.1])

theorem dropWhile_head_false (p : Char → Bool) : ∀ (l : List Char) {c : Char},
    (l.dropWhile p).head? = some c → p c = false := by
  intro l
  induction l with
  | nil => intro c h; simp at h
  | cons x tl ih =>
    intro c h
    rw [List.dropWhile_cons] at h
    by_cases hx : p x = true
    · rw [if_pos hx] at h
      exact ih h
    · rw [if_neg hx] at h
      simp only [List.head?_cons, Option.some.injEq] at h
      subst h
      simpa using hx

theorem dropWhile_eq_self_of_head (p : Char → Bool) (l : List Char)
    (h : ∀ c, l.head? = some c → p c = false) : l.dropWhile p = l := by
  cases l with
  | nil => rfl
  | cons x tl => rw [List.dropWhile_cons, if_neg (by simp [h x rfl])]

theorem pyStrip_span (l : List Char) : pyStrip l <:+: l := by
  have h1 : l.dropWhile isPySpace <:+ l := List.dropWhile_suffix _
  have h2 : (l.dropWhile isPySpace).reverse.dropWhile isPySpace <:+
      (l.dropWhile isPySpace).reverse := List.dropWhile_suffix _
  have h3 : pyStrip l <+: l.dropWhile isPySpace := by
    rw [pyStrip, ← List.reverse_suffix]
    simpa using h2
  exact h3.isInfix.trans h1.isInfix

theorem pyStrip_idem (l : List Char) : pyStrip (pyStrip l) = pyStrip l := by
  by_cases hY : (l.dropWhile isPySpace).reverse.dropWhile isPySpace = []
  · have hB : pyStrip l = [] := by rw [pyStrip, hY]; rfl
    rw [hB]
    rfl
  · have hBhead : ∀ c, (pyStrip l).head? = some c → isPySpace c = false := by
      intro c hc
      rw [pyStrip, List.head?_reverse] at hc
      obtain ⟨t, ht⟩ := (List.dropWhile_suffix
        (l := (l.dropWhile isPySpace).reverse) isPySpace)
      have hg : (l.dropWhile isPySpace).reverse.getLast? = some c := by
        rw [← ht, List.getLast?_append_of_ne_nil _ hY, hc]
      rw [List.getLast?_reverse] at hg
      exact dropWhile_head_false isPySpace l hg
    have hBlast : ∀ c, (pyStrip l).getLast? = some c → isPySpace c = false := by
      intro c hc
      rw [pyStrip, List.getLast?_reverse] at hc
      exact dropWhile_head_false isPySpace _ hc
    have h1 : (pyStrip l).dropWhile isPySpace = pyStrip l :=
      dropWhile_eq_self_of_head _ _ hBhead
    have h2 : (pyStrip l).reverse.dropWhile isPySpace = (pyStrip l).reverse := by
      refine dropWhile_eq_self_of_head _ _ ?_
      intro c hc
      rw [List.head?_reverse] at hc
      exact hBlast c hc
    rw [pyStrip, h1, h2, List.reverse_reverse]

/-- Everything true of a kept sentence: length above 3, already stripped,
a verbatim contiguous span of the input, and free of internal
terminator-plus-space break points. -/
theorem mem_split_sentences {text s : List Char}
    (h : s ∈ split_sentences text) :
    3 < s.length ∧ pyStrip s = s ∧ s <:+: text ∧ NoBreak s := by
  obtain ⟨raw, hraw, hcond⟩ := List.mem_filterMap.mp h
  dsimp only at hcond
  split at hcond
  · next hlen =>
      obtain rfl := Option.some.inj hcond
      have hinfix_raw : raw <:+: text := by
        have h4 := splitAux_mem_span text false none [] (by simp) raw hraw
        simpa using h4
      have hnb_raw : NoBreak raw :=
        splitAux_mem_noBreak text false none [] (by simp) rfl trivial raw hraw
      exact ⟨hlen, pyStrip_idem raw, (pyStrip_span raw).trans hinfix_raw,
        NoBreak.of_span (pyStrip_span raw) hnb_raw⟩
  · next => cases hcond

/-- Counterexample to C8 as stated: the splitter regex breaks only at
*space* characters, not at arbitrary whitespace.  On
`"Good day.\tNice day."` the code keeps a single span containing the tab,
whereas the claimed whitespace-based algorithm (modelled by
`splitSentencesClaim`) would yield two sentences. -/
theorem splitter_whitespace_cex :
    split_sentences ("Good day.\tNice day.".toList) =
      ["Good day.\tNice day.".toList] ∧
    splitSentencesClaim ("Good day.\tNice day.".toList) =
      ["Good day.".toList, "Nice day.".toList] ∧
    split_sentences ("Good day.\tNice day.".toList) ≠
      splitSentencesClaim ("Good day.\tNice day.".toList) := by
  refine ⟨by decide, by decide, by decide⟩

/-- C8 (amended).  `split_sentences` breaks the text after every
occurrence of `.`, `!` or `?` that is followed by one or more *space*
characters (not arbitrary whitespace), strips each resulting span,
discards spans whose stripped length is ≤ 3, and returns the remaining
spans in original order; it is total, and returns the empty sequence on
empty input.  Concretely: every returned sentence has length above 3, is
exactly its own stripped form, is a verbatim contiguous span of the
input, and contains no internal terminator-followed-by-space break. -/
theorem splitter_space_properties (text : List Char) :
    split_sentences [] = [] ∧
    ∀ s ∈ split_sentences text,
      3 < s.length ∧ pyStrip s = s ∧ s <:+: text ∧ NoBreak s :=
  ⟨by decide, fun _ hs => mem_split_sentences hs⟩

/-- Witness for C8 (amended) at `"Good day. Fine day."` and its first
sentence. -/
theorem splitter_space_properties_wit :
    3 < ("Good day.".toList).length ∧
    pyStrip ("Good day.".toList) = "Good day.".toList ∧
    ("Good day.".toList) <:+: ("Good day. Fine day.".toList) ∧
    NoBreak ("Good day.".toList) :=
  (splitter_space_properties ("Good day. Fine day.".toList)).2
    ("Good day.".toList) (by decide)

end ResumeSum
